import Mathlib

/-!
Verification of the blob-archiver storage core against its specification.

The Go package `storage` (data model, SSZ concatenation codec, error
taxonomy, backfill and lockfile records) is embedded shallowly below;
byte buffers are `List Nat`, the Go `copy` into a slice of a preallocated
buffer is modelled with explicit bounds checks, and fallible operations
return `Except`/`Option`.
-/

/-- The fixed serialized size of one blob sidecar (`blobSidecarSize` in the source). -/
def blobSidecarSize : Nat := 131928

instance exceptStringListDecEq : DecidableEq (Except String (List Nat)) :=
  fun a b =>
    match a, b with
    | Except.ok x, Except.ok y =>
        if h : x = y then isTrue (by rw [h]) else isFalse (by simp [h])
    | Except.error x, Except.error y =>
        if h : x = y then isTrue (by rw [h]) else isFalse (by simp [h])
    | Except.ok _, Except.error _ => isFalse (by simp)
    | Except.error _, Except.ok _ => isFalse (by simp)

/-- A deneb blob sidecar, abstracted by the outcome of its (external) `MarshalSSZ`:
either an error or its serialized bytes. The deneb marshaling code is an external
library, so the record is identified with its wire serialization. -/
structure BlobSidecar where
  ssz : Except String (List Nat)
deriving DecidableEq, Repr

/-- Source `BlobSidecars`: an ordered list of sidecar records. -/
structure BlobSidecars where
  Data : List BlobSidecar
deriving DecidableEq, Repr

/-- Source `SizeSSZ`: `len(b.Data) * blobSidecarSize`. -/
def BlobSidecars.SizeSSZ (b : BlobSidecars) : Nat :=
  b.Data.length * blobSidecarSize

/-- The serialized bytes of a record (its `MarshalSSZ` output when successful). -/
def sszBytes (s : BlobSidecar) : List Nat :=
  match s.ssz with
  | Except.ok bs => bs
  | Except.error _ => []

/-- The Go `copy(result[start:stop], src)`: the slice expression panics (modelled as
`none`) unless `start ≤ stop ≤ len(result)`; otherwise `min (stop - start)
src.length` bytes of `src` are written at offset `start`, in place. -/
def copySlice (result : List Nat) (start stop : Nat) (src : List Nat) : Option (List Nat) :=
  if start ≤ stop ∧ stop ≤ result.length then
    some (result.take start ++ src.take (stop - start)
      ++ result.drop (start + min (stop - start) src.length))
  else none

/-- The loop body of `BlobSidecars.MarshalSSZ`: for each record at index `i`,
marshal it (propagating its error), then `copy` its bytes into
`result[i*len(bytes) : (i+1)*len(bytes)]`. `none` models an out-of-bounds
slice panic. -/
def marshalSSZGo : List BlobSidecar → Nat → List Nat → Option (Except String (List Nat))
  | [], _, result => some (Except.ok result)
  | s :: rest, i, result =>
    match s.ssz with
    | Except.error e => some (Except.error e)
    | Except.ok sidecarBytes =>
      match copySlice result (i * sidecarBytes.length)
          ((i + 1) * sidecarBytes.length) sidecarBytes with
      | none => none
      | some result2 => marshalSSZGo rest (i + 1) result2

/-- Source `BlobSidecars.MarshalSSZ`: allocate a zero buffer of
`SizeSSZ` bytes and copy the serialization of each record in at its stride offset. -/
def BlobSidecars.MarshalSSZ (b : BlobSidecars) : Option (Except String (List Nat)) :=
  marshalSSZGo b.Data 0 (List.replicate b.SizeSSZ 0)

/-- Fixed-stride slicing of a buffer into records of `n` bytes each. -/
def sliceRecords (n : Nat) (l : List Nat) : List (List Nat) :=
  if h : n = 0 ∨ l = [] then []
  else l.take n :: sliceRecords n (l.drop n)
termination_by l.length
decreasing_by
  simp only [not_or] at h
  have hl : 0 < l.length := List.length_pos.mpr h.2
  have hn : 0 < n := Nat.pos_of_ne_zero h.1
  simp only [List.length_drop]
  omega

/-- Modelled from the spec: the Blob Codec decode operation (§4.1), whose code is
not under src/. "decoding is pure fixed-stride slicing — no length prefixes, no
delimiters. Decoding fails with a decode error if the buffer length is not an
exact multiple of the record size." The error message is the `ErrMarshaling`
text from the source. -/
def decodeBlobSidecars (buf : List Nat) : Except String (List (List Nat)) :=
  if buf.length % blobSidecarSize = 0 then
    Except.ok (sliceRecords blobSidecarSize buf)
  else
    Except.error "error encoding/decoding blob"

/-- The error taxonomy declared in the source: `ErrNotFound`, `ErrStorage`,
`ErrMarshaling`, `ErrCompress`. -/
inductive StorageErr
  | notFound
  | storage
  | marshaling
  | compress
deriving DecidableEq, Repr

/-- The three-error taxonomy the spec names in §6: not-found,
storage-access-error, encode/decode-error. -/
def specTaxonomy : List StorageErr :=
  [StorageErr.notFound, StorageErr.storage, StorageErr.marshaling]

/-- The full error taxonomy of §7, which additionally names the
compression error (`ErrCompress`, "error gzipping the data"). -/
def fullTaxonomy : List StorageErr :=
  [StorageErr.notFound, StorageErr.storage, StorageErr.marshaling, StorageErr.compress]

/-- Modelled from the spec: `Exists` (§4.2) — backend code is not under src/.
Existence check only; fails with the storage-access error on backend fault. -/
def existsOp (backendOk found : Bool) : Except StorageErr Bool :=
  if backendOk then Except.ok found else Except.error StorageErr.storage

/-- Modelled from the spec: `ReadBlob` (§4.2) — backend code is not under src/.
Not-found if absent, storage-access error on backend fault, decode error if the
persisted bytes do not parse. -/
def readBlob (backendOk present decodeOk : Bool) : Except StorageErr Unit :=
  if !backendOk then Except.error StorageErr.storage
  else if !present then Except.error StorageErr.notFound
  else if !decodeOk then Except.error StorageErr.marshaling
  else Except.ok ()

/-- Modelled from the spec: `ReadBackfillProcesses` (§4.2) — backend code is not
under src/. Same taxonomy as `ReadBlob`, but absence is a valid empty state. -/
def readBackfillProcessesOp (backendOk decodeOk : Bool) : Except StorageErr Unit :=
  if !backendOk then Except.error StorageErr.storage
  else if !decodeOk then Except.error StorageErr.marshaling
  else Except.ok ()

/-- Modelled from the spec: `ReadLockfile` (§4.2) — backend code is not under
src/. Same taxonomy as `ReadBlob`, but absence is a valid zero state. -/
def readLockfileOp (backendOk decodeOk : Bool) : Except StorageErr Unit :=
  if !backendOk then Except.error StorageErr.storage
  else if !decodeOk then Except.error StorageErr.marshaling
  else Except.ok ()

/-- Modelled from the spec: the object-store backend `WriteBlob` (§4.2, §7) —
backend code is not under src/. The payload is encoded, then gzipped (§7:
`CompressionError`, the source `ErrCompress` "returned when there is an error
gzipping the data"), then uploaded. -/
def writeBlob (encodeOk compressOk putOk : Bool) : Except StorageErr Unit :=
  if !encodeOk then Except.error StorageErr.marshaling
  else if !compressOk then Except.error StorageErr.compress
  else if !putOk then Except.error StorageErr.storage
  else Except.ok ()

/-- Modelled from the spec: `WriteBackfillProcesses` (§4.2) — backend code is not
under src/. Whole-object overwrite; fails with storage-access or encode error. -/
def writeBackfillProcessesOp (encodeOk putOk : Bool) : Except StorageErr Unit :=
  if !encodeOk then Except.error StorageErr.marshaling
  else if !putOk then Except.error StorageErr.storage
  else Except.ok ()

/-- Modelled from the spec: `WriteLockfile` (§4.2) — backend code is not under
src/. Whole-object overwrite; fails with storage-access or encode error. -/
def writeLockfileOp (encodeOk putOk : Bool) : Except StorageErr Unit :=
  if !encodeOk then Except.error StorageErr.marshaling
  else if !putOk then Except.error StorageErr.storage
  else Except.ok ()

/-- The errors an operation result can surface: one error or none. -/
def errsOf {α : Type} : Except StorageErr α → List StorageErr
  | Except.ok _ => []
  | Except.error e => [e]

/-- Source `Lockfile`: holder identifier and lease timestamp (int64). -/
structure Lockfile where
  ArchiverId : String
  Timestamp : Int
deriving DecidableEq, Repr

/-- The lock coordinator states (§4.3). -/
inductive LockState
  | Unheld
  | HeldBySelf
  | HeldByOther
deriving DecidableEq, Repr

/-- Modelled from the spec: the startup transition of the lock coordinator (§4.3) —
the coordinator code is not under src/. "On startup, read the Lockfile. If
absent or its timestamp is older than the lease timeout, transition to
HeldBySelf by writing a new Lockfile with the identifier of this instance and the
current time. If present and fresh and the holder id differs, transition to
HeldByOther." Returns the resulting state and the lockfile written (if any). -/
def lockStartup (selfId : String) (now leaseTimeout : Int) (existing : Option Lockfile) :
    LockState × Option Lockfile :=
  match existing with
  | none => (LockState.HeldBySelf, some ⟨selfId, now⟩)
  | some lf =>
      if now - lf.Timestamp > leaseTimeout then (LockState.HeldBySelf, some ⟨selfId, now⟩)
      else if lf.ArchiverId = selfId then (LockState.HeldBySelf, some ⟨selfId, now⟩)
      else (LockState.HeldByOther, none)

/-- A beacon block header: root hash, slot, parent root (the fields of
`v1.BeaconBlockHeader` the archiver uses; hashes are abstracted as `Nat`). -/
structure BeaconBlockHeader where
  Root : Nat
  Slot : Nat
  ParentRoot : Nat
deriving DecidableEq, Repr

/-- Source `BackfillProcess`: the walk origin and current frontier. -/
structure BackfillProcess where
  Start : BeaconBlockHeader
  Current : BeaconBlockHeader
deriving DecidableEq, Repr

/-- Source `BackfillProcesses`: a map from backfill start block hash to
`BackfillProcess`, embedded as an association list with unique keys. -/
abbrev BackfillProcesses := List (Nat × BackfillProcess)

/-- Modelled from the spec: the Backfill Tracker `StartOrResume` (§4.4) — the
tracker code is not under src/. "if a BackfillProcess keyed by the hash of
startHeader already exists, return it; otherwise create a new entry with
Start = Current = startHeader and persist the updated map." Returns the
process, the resulting map, and whether the updated map was persisted. -/
def StartOrResume (m : BackfillProcesses) (startHeader : BeaconBlockHeader) :
    BackfillProcess × BackfillProcesses × Bool :=
  match m.lookup startHeader.Root with
  | some p => (p, m, false)
  | none => (⟨startHeader, startHeader⟩,
      (startHeader.Root, (⟨startHeader, startHeader⟩ : BackfillProcess)) :: m, true)

/-- Modelled from the spec: one live-head archival step for a block hash
(§4.5 step 1) — the Chain Walker code is not under src/. "If
Storage.Exists(head.hash) is true, nothing to do for the head; otherwise fetch
the blob sidecars of the head from the beacon client and WriteBlob." The store maps
block hash to stored bytes; a fetch or marshal failure aborts the step. -/
def archiveBlock (beacon : Nat → Option BlobSidecars) (store : List (Nat × List Nat))
    (bps : BackfillProcesses) (h : Nat) :
    Option (List (Nat × List Nat) × BackfillProcesses) :=
  if (store.lookup h).isSome then some (store, bps)
  else
    match beacon h with
    | none => none
    | some sidecars =>
        match sidecars.MarshalSSZ with
        | some (Except.ok bytes) => some ((h, bytes) :: store, bps)
        | _ => none

/-- Source `StubBeaconClient`: headers and blobs keyed by identifier
string (hash, slot, or the tags head/finalized). -/
structure StubBeaconClient where
  Headers : List (String × BeaconBlockHeader)
  Blobs : List (String × List BlobSidecar)

/-- Source `StubBeaconClient.BeaconBlockHeader`: look the block up in
the `Headers` map; "block not found" if absent. A pure function of the client
and the identifier: no side effect. -/
def StubBeaconClient.beaconBlockHeader (s : StubBeaconClient) (block : String) :
    Except String BeaconBlockHeader :=
  match s.Headers.lookup block with
  | some h => Except.ok h
  | none => Except.error "block not found"

/-- Source `StubBeaconClient.BlobSidecars`: look the block up in the
`Blobs` map; "block not found" if absent. A pure function of the client and
the identifier: no side effect. -/
def StubBeaconClient.blobSidecars (s : StubBeaconClient) (block : String) :
    Except String (List BlobSidecar) :=
  match s.Blobs.lookup block with
  | some b => Except.ok b
  | none => Except.error "block not found"

/-- Claim C3 counterexample: the object-store backend `WriteBlob` surfaces the
compression error (`ErrCompress`), which lies outside the three-error taxonomy
not-found / storage-access / encode-decode the claim names. -/
theorem storage_taxonomy_counterexample :
    writeBlob true false true = Except.error StorageErr.compress ∧
    StorageErr.compress ∉ specTaxonomy := by
  exact ⟨rfl, by decide⟩

/-- Claim C3 (amended): every Storage Abstraction operation returns success or
exactly one error from the declared four-error taxonomy not-found,
storage-access, encode/decode, or compression — no operation returns any error
outside these. -/
theorem storage_taxonomy_amended :
    ∀ a b c : Bool,
      (((errsOf (existsOp a b)).all fullTaxonomy.contains
        && (errsOf (readBlob a b c)).all fullTaxonomy.contains
        && (errsOf (readBackfillProcessesOp a b)).all fullTaxonomy.contains
        && (errsOf (readLockfileOp a b)).all fullTaxonomy.contains
        && (errsOf (writeBlob a b c)).all fullTaxonomy.contains
        && (errsOf (writeBackfillProcessesOp a b)).all fullTaxonomy.contains
        && (errsOf (writeLockfileOp a b)).all fullTaxonomy.contains) = true) := by
  decide

/-- Claim C4: a lock coordinator instance that on startup reads a lockfile whose
timestamp is older than the lease timeout transitions to `HeldBySelf` by
writing a new lockfile with its own identifier and the current time, with no
condition on the holder id in the existing lockfile. -/
theorem lockStartup_stale_acquires (selfId : String) (now leaseTimeout : Int)
    (lf : Lockfile) (h : now - lf.Timestamp > leaseTimeout) :
    lockStartup selfId now leaseTimeout (some lf) =
      (LockState.HeldBySelf, some ⟨selfId, now⟩) := by
  simp [lockStartup, if_pos h]

/-- Claim C4 witness: a lockfile held by a different instance with timestamp
`T = 100` and lease timeout `L = 10`, checked at `T + L + 1 = 111`. -/
theorem lockStartup_stale_acquires_witness :
    lockStartup "self" 111 10 (some ⟨"other", 100⟩) =
      (LockState.HeldBySelf, some ⟨"self", 111⟩) :=
  lockStartup_stale_acquires "self" 111 10 ⟨"other", 100⟩ (by decide)

/-- Claim C5: `StartOrResume` returns the existing process and leaves the map
unchanged and unpersisted when the hash of the start header is already a key;
otherwise it returns a fresh process with `Start = Current = startHeader`,
keys it under the hash of the start header without disturbing other keys, and
persists the updated map. -/
theorem startOrResume_spec (m : BackfillProcesses) (hd : BeaconBlockHeader) :
    (∀ p, m.lookup hd.Root = some p → StartOrResume m hd = (p, m, false)) ∧
    (m.lookup hd.Root = none →
      (StartOrResume m hd).1 = ⟨hd, hd⟩ ∧
      ((StartOrResume m hd).2.1).lookup hd.Root = some (⟨hd, hd⟩ : BackfillProcess) ∧
      (∀ k, k ≠ hd.Root → ((StartOrResume m hd).2.1).lookup k = m.lookup k) ∧
      (StartOrResume m hd).2.2 = true) := by
  constructor
  · intro p hp
    simp [StartOrResume, hp]
  · intro hnone
    refine ⟨?_, ?_, ?_, ?_⟩
    · simp [StartOrResume, hnone]
    · simp [StartOrResume, hnone, List.lookup_cons]
    · intro k hk
      have hb : (k == hd.Root) = false := beq_eq_false_iff_ne.mpr hk
      simp [StartOrResume, hnone, List.lookup_cons, hb]
    · simp [StartOrResume, hnone]

/-- Claim C5 witness: resuming with key `3` present returns the stored process
untouched; starting on an empty map creates `Start = Current = startHeader`,
makes it retrievable, and persists. -/
theorem startOrResume_spec_witness :
    (StartOrResume [(3, (⟨⟨3, 7, 0⟩, ⟨3, 5, 0⟩⟩ : BackfillProcess))] ⟨3, 7, 0⟩ =
      ((⟨⟨3, 7, 0⟩, ⟨3, 5, 0⟩⟩ : BackfillProcess),
        [(3, (⟨⟨3, 7, 0⟩, ⟨3, 5, 0⟩⟩ : BackfillProcess))], false)) ∧
    (StartOrResume [] ⟨3, 7, 0⟩).1 = ⟨⟨3, 7, 0⟩, ⟨3, 7, 0⟩⟩ ∧
    ((StartOrResume [] ⟨3, 7, 0⟩).2.1).lookup 3 =
      some (⟨⟨3, 7, 0⟩, ⟨3, 7, 0⟩⟩ : BackfillProcess) ∧
    (StartOrResume [] ⟨3, 7, 0⟩).2.2 = true := by
  refine ⟨(startOrResume_spec [(3, ⟨⟨3, 7, 0⟩, ⟨3, 5, 0⟩⟩)] ⟨3, 7, 0⟩).1 _ (by decide),
    ?_, ?_, ?_⟩
  · exact ((startOrResume_spec [] ⟨3, 7, 0⟩).2 (by decide)).1
  · exact ((startOrResume_spec [] ⟨3, 7, 0⟩).2 (by decide)).2.1
  · exact ((startOrResume_spec [] ⟨3, 7, 0⟩).2 (by decide)).2.2.2

/-- Claim C6: after a first successful archival of a block hash, running the
archiving step again for the same hash returns the stored state and the
`BackfillProcesses` map unchanged. -/
theorem archiveBlock_idempotent (beacon : Nat → Option BlobSidecars)
    (store : List (Nat × List Nat)) (bps : BackfillProcesses) (h : Nat)
    (s2 : List (Nat × List Nat)) (b2 : BackfillProcesses)
    (hfst : archiveBlock beacon store bps h = some (s2, b2)) :
    archiveBlock beacon s2 b2 h = some (s2, b2) := by
  unfold archiveBlock at hfst ⊢
  by_cases hex : (store.lookup h).isSome = true
  · rw [if_pos hex] at hfst
    simp only [Option.some.injEq, Prod.mk.injEq] at hfst
    obtain ⟨hs, hb⟩ := hfst
    subst hs
    subst hb
    rw [if_pos hex]
  · rw [if_neg hex] at hfst
    split at hfst
    · simp at hfst
    · split at hfst
      · rename_i bytes hm
        simp only [Option.some.injEq, Prod.mk.injEq] at hfst
        obtain ⟨hs, hbps⟩ := hfst
        subst hs
        subst hbps
        have hlook : (((h, bytes) :: store).lookup h).isSome = true := by
          simp [List.lookup_cons]
        rw [if_pos hlook]
      · simp at hfst

/-- Claim C6 witness: archiving block hash 1 with no sidecars into empty storage,
then running the step again, returns the same stored bytes and the same
(empty) `BackfillProcesses` map. -/
theorem archiveBlock_idempotent_witness :
    archiveBlock (fun _ => some ⟨[]⟩) [] [] 1 = some ([(1, [])], []) ∧
    archiveBlock (fun _ => some ⟨[]⟩) [(1, [])] [] 1 = some ([(1, [])], []) :=
  ⟨rfl, archiveBlock_idempotent (fun _ => some ⟨[]⟩) [] [] 1 [(1, [])] [] rfl⟩

/-- Claim C7: decoding a buffer whose length is not an exact multiple of the
fixed record size (131928 bytes) fails with the decode (marshaling) error. -/
theorem decode_nonmultiple_fails (buf : List Nat)
    (h : buf.length % blobSidecarSize ≠ 0) :
    decodeBlobSidecars buf = Except.error "error encoding/decoding blob" := by
  simp [decodeBlobSidecars, h]

/-- Claim C7 witness: a one-byte buffer is not a multiple of 131928 and fails
to decode. -/
theorem decode_nonmultiple_fails_witness :
    decodeBlobSidecars [0] = Except.error "error encoding/decoding blob" :=
  decode_nonmultiple_fails [0] (by decide)

/-- Claim C9: the stub beacon client header and sidecar operations return an
error exactly when the identifier is unknown (absent from the respective map);
both are pure functions of the client and identifier, so neither has any side
effect. -/
theorem stub_beacon_error_iff_unknown (s : StubBeaconClient) (id : String) :
    ((∃ e, s.beaconBlockHeader id = Except.error e) ↔ s.Headers.lookup id = none) ∧
    ((∃ e, s.blobSidecars id = Except.error e) ↔ s.Blobs.lookup id = none) := by
  constructor
  · unfold StubBeaconClient.beaconBlockHeader
    cases hl : s.Headers.lookup id <;> simp
  · unfold StubBeaconClient.blobSidecars
    cases hl : s.Blobs.lookup id <;> simp

/-- Claim C10: a `BlobSidecars` value with an empty record list marshals to a
zero-length buffer with no error, and its `SizeSSZ` is 0. -/
theorem marshalSSZ_empty (b : BlobSidecars) (h : b.Data = []) :
    b.MarshalSSZ = some (Except.ok []) ∧ b.SizeSSZ = 0 := by
  cases b with
  | mk d =>
    simp only at h
    subst h
    exact ⟨rfl, rfl⟩

/-- Claim C10 witness: the empty sidecar list. -/
theorem marshalSSZ_empty_witness :
    BlobSidecars.MarshalSSZ ⟨[]⟩ = some (Except.ok []) ∧
    BlobSidecars.SizeSSZ ⟨[]⟩ = 0 :=
  marshalSSZ_empty ⟨[]⟩ rfl


/-- One `copy` step of the marshal loop at index `i`, writing a record of
exactly the fixed size into the zero-padded tail of the buffer. -/
lemma copySlice_exact (acc bs : List Nat) (i t : Nat)
    (hacc : acc.length = i * blobSidecarSize)
    (hlen : bs.length = blobSidecarSize) :
    copySlice (acc ++ List.replicate (blobSidecarSize + t) 0) (i * blobSidecarSize)
      ((i + 1) * blobSidecarSize) bs
      = some ((acc ++ bs) ++ List.replicate t 0) := by
  have hsub : (i + 1) * blobSidecarSize - i * blobSidecarSize = blobSidecarSize := by
    rw [Nat.succ_mul]
    omega
  have hlenfull : (acc ++ List.replicate (blobSidecarSize + t) 0).length
      = i * blobSidecarSize + (blobSidecarSize + t) := by
    simp [hacc]
  have hcond : i * blobSidecarSize ≤ (i + 1) * blobSidecarSize ∧
      (i + 1) * blobSidecarSize ≤ (acc ++ List.replicate (blobSidecarSize + t) 0).length := by
    rw [hlenfull, Nat.succ_mul]
    omega
  have htake : bs.take blobSidecarSize = bs := by
    rw [← hlen]
    exact List.take_length bs
  have hdrop : (acc ++ List.replicate (blobSidecarSize + t) 0).drop
      (i * blobSidecarSize + blobSidecarSize) = List.replicate t 0 := by
    rw [← hacc, List.drop_append, List.drop_replicate, Nat.add_sub_cancel_left]
  rw [copySlice, if_pos hcond, hsub, hlen, Nat.min_self, htake,
    List.take_left' hacc, hdrop]

/-- Unfolding one iteration of the marshal loop on a record that serializes to
exactly the fixed size. -/
lemma marshalSSZGo_cons_ok (s : BlobSidecar) (rest : List BlobSidecar) (i : Nat)
    (acc bs : List Nat) (hssz : s.ssz = Except.ok bs)
    (hacc : acc.length = i * blobSidecarSize) (hlen : bs.length = blobSidecarSize) :
    marshalSSZGo (s :: rest) i
        (acc ++ List.replicate ((s :: rest).length * blobSidecarSize) 0)
      = marshalSSZGo rest (i + 1)
        ((acc ++ bs) ++ List.replicate (rest.length * blobSidecarSize) 0) := by
  have hsplit : (s :: rest).length * blobSidecarSize
      = blobSidecarSize + rest.length * blobSidecarSize := by
    simp [Nat.succ_mul, Nat.add_comm]
  rw [hsplit]
  simp only [marshalSSZGo, hssz, hlen,
    copySlice_exact acc bs i (rest.length * blobSidecarSize) hacc hlen]

/-- The marshal loop on records that all serialize to the fixed size writes the
in-order concatenation of their serializations after the accumulated prefix. -/
lemma marshalSSZGo_append_ok (data : List BlobSidecar) :
    ∀ (i : Nat) (acc : List Nat), acc.length = i * blobSidecarSize →
    (∀ s ∈ data, ∃ bs, s.ssz = Except.ok bs ∧ bs.length = blobSidecarSize) →
    marshalSSZGo data i (acc ++ List.replicate (data.length * blobSidecarSize) 0)
      = some (Except.ok (acc ++ (data.map sszBytes).flatten)) := by
  induction data with
  | nil =>
    intro i acc hacc hall
    simp [marshalSSZGo]
  | cons s rest ih =>
    intro i acc hacc hall
    obtain ⟨bs, hssz, hlen⟩ := hall s (List.mem_cons_self _ _)
    rw [marshalSSZGo_cons_ok s rest i acc bs hssz hacc hlen,
      ih (i + 1) (acc ++ bs) (by simp [hacc, hlen, Nat.succ_mul])
        (fun x hx => hall x (List.mem_cons_of_mem _ hx))]
    have hb : sszBytes s = bs := by simp [sszBytes, hssz]
    simp [hb, List.append_assoc]

/-- The length of a concatenation of fixed-size records. -/
lemma join_length_fixed (L : List (List Nat))
    (hall : ∀ l ∈ L, l.length = blobSidecarSize) :
    L.flatten.length = L.length * blobSidecarSize := by
  induction L with
  | nil => simp
  | cons l rest ih =>
    have hl : l.length = blobSidecarSize := hall l (List.mem_cons_self _ _)
    have hrest := ih (fun x hx => hall x (List.mem_cons_of_mem _ hx))
    simp only [List.flatten_cons, List.length_append, List.length_cons, hl, hrest,
      Nat.succ_mul]
    omega

/-- Fixed-stride slicing inverts concatenation of fixed-size records. -/
lemma sliceRecords_join (L : List (List Nat))
    (hall : ∀ l ∈ L, l.length = blobSidecarSize) :
    sliceRecords blobSidecarSize L.flatten = L := by
  induction L with
  | nil =>
    simp only [List.flatten_nil]
    rw [sliceRecords]
    simp
  | cons l rest ih =>
    have hl : l.length = blobSidecarSize := hall l (List.mem_cons_self _ _)
    have hlne : l ≠ [] := by
      intro hnil
      rw [hnil] at hl
      simp [blobSidecarSize] at hl
    simp only [List.flatten_cons]
    rw [sliceRecords, dif_neg (by simp [blobSidecarSize, hlne])]
    rw [List.take_left' hl, List.drop_left' hl,
      ih (fun x hx => hall x (List.mem_cons_of_mem _ hx))]

/-- Claim C2: for records that each serialize to the fixed record size,
`MarshalSSZ` returns the in-order concatenation of the record serializations
with no length prefixes or delimiters, and the buffer length equals the record
count times 131928 bytes, as `SizeSSZ` reports. -/
theorem marshalSSZ_concat (b : BlobSidecars)
    (h : ∀ s ∈ b.Data, ∃ bs, s.ssz = Except.ok bs ∧ bs.length = blobSidecarSize) :
    b.MarshalSSZ = some (Except.ok ((b.Data.map sszBytes).flatten)) ∧
    ((b.Data.map sszBytes).flatten).length = b.Data.length * blobSidecarSize ∧
    b.SizeSSZ = b.Data.length * blobSidecarSize := by
  have hall : ∀ l ∈ b.Data.map sszBytes, l.length = blobSidecarSize := by
    intro l hl
    rw [List.mem_map] at hl
    obtain ⟨s, hs, rfl⟩ := hl
    obtain ⟨bs, hssz, hlen⟩ := h s hs
    simp [sszBytes, hssz, hlen]
  refine ⟨?_, ?_, rfl⟩
  · have hmain := marshalSSZGo_append_ok b.Data 0 [] (by simp) h
    simpa [BlobSidecars.MarshalSSZ, BlobSidecars.SizeSSZ] using hmain
  · rw [join_length_fixed (b.Data.map sszBytes) hall, List.length_map]

/-- Claim C2 witness: one record of exactly 131928 zero bytes. -/
theorem marshalSSZ_concat_witness :
    BlobSidecars.MarshalSSZ ⟨[⟨Except.ok (List.replicate blobSidecarSize 0)⟩]⟩
      = some (Except.ok
        (([(⟨Except.ok (List.replicate blobSidecarSize 0)⟩ : BlobSidecar)].map
          sszBytes).flatten)) ∧
    (([(⟨Except.ok (List.replicate blobSidecarSize 0)⟩ : BlobSidecar)].map
        sszBytes).flatten).length
      = [(⟨Except.ok (List.replicate blobSidecarSize 0)⟩ : BlobSidecar)].length
          * blobSidecarSize ∧
    BlobSidecars.SizeSSZ ⟨[⟨Except.ok (List.replicate blobSidecarSize 0)⟩]⟩
      = [(⟨Except.ok (List.replicate blobSidecarSize 0)⟩ : BlobSidecar)].length
          * blobSidecarSize :=
  marshalSSZ_concat ⟨[⟨Except.ok (List.replicate blobSidecarSize 0)⟩]⟩ (by
    intro s hs
    rw [List.mem_singleton] at hs
    subst hs
    exact ⟨_, rfl, by simp⟩)

/-- Claim C1: for any list of fixed-size sidecar records, decoding the result
of encoding the list yields the identical list of records (each record read
back as its serialization); list lengths 0, 1 and N are all covered by the
universal quantifier. -/
theorem decode_encode_roundtrip (b : BlobSidecars)
    (h : ∀ s ∈ b.Data, ∃ bs, s.ssz = Except.ok bs ∧ bs.length = blobSidecarSize) :
    ∃ out, b.MarshalSSZ = some (Except.ok out) ∧
      decodeBlobSidecars out = Except.ok (b.Data.map sszBytes) := by
  have hall : ∀ l ∈ b.Data.map sszBytes, l.length = blobSidecarSize := by
    intro l hl
    rw [List.mem_map] at hl
    obtain ⟨s, hs, rfl⟩ := hl
    obtain ⟨bs, hssz, hlen⟩ := h s hs
    simp [sszBytes, hssz, hlen]
  refine ⟨(b.Data.map sszBytes).flatten, ?_, ?_⟩
  · have hmain := marshalSSZGo_append_ok b.Data 0 [] (by simp) h
    simpa [BlobSidecars.MarshalSSZ, BlobSidecars.SizeSSZ] using hmain
  · have hmod : ((b.Data.map sszBytes).flatten).length % blobSidecarSize = 0 := by
      rw [join_length_fixed (b.Data.map sszBytes) hall]
      exact Nat.mul_mod_left _ _
    rw [decodeBlobSidecars, if_pos hmod, sliceRecords_join (b.Data.map sszBytes) hall]

/-- Claim C1 witness: a singleton list whose record serializes to 131928 bytes
of value 1 round-trips. -/
theorem decode_encode_roundtrip_witness :
    ∃ out, BlobSidecars.MarshalSSZ ⟨[⟨Except.ok (List.replicate blobSidecarSize 1)⟩]⟩
        = some (Except.ok out) ∧
      decodeBlobSidecars out = Except.ok
        ([(⟨Except.ok (List.replicate blobSidecarSize 1)⟩ : BlobSidecar)].map sszBytes) :=
  decode_encode_roundtrip ⟨[⟨Except.ok (List.replicate blobSidecarSize 1)⟩]⟩ (by
    intro s hs
    rw [List.mem_singleton] at hs
    subst hs
    exact ⟨_, rfl, by simp⟩)

/-- Unfolding the marshal loop on a single record, given the computed copy. -/
lemma marshalSSZGo_single (s : BlobSidecar) (bs result : List Nat)
    (hssz : s.ssz = Except.ok bs) (res2 : List Nat)
    (hcopy : copySlice result (0 * bs.length) ((0 + 1) * bs.length) bs = some res2) :
    marshalSSZGo [s] 0 result = some (Except.ok res2) := by
  simp only [marshalSSZGo, hssz, hcopy]

/-- Characterization of the marshal loop when every successfully serialized
record has the fixed size: the loop never hits the out-of-bounds panic, and it
returns either the first record error or the full concatenation. -/
lemma marshalSSZGo_char (data : List BlobSidecar) :
    ∀ (i : Nat) (acc : List Nat), acc.length = i * blobSidecarSize →
    (∀ s ∈ data, ∀ bs, s.ssz = Except.ok bs → bs.length = blobSidecarSize) →
    (∃ e, marshalSSZGo data i (acc ++ List.replicate (data.length * blobSidecarSize) 0)
        = some (Except.error e) ∧ ∃ s ∈ data, s.ssz = Except.error e)
    ∨ (marshalSSZGo data i (acc ++ List.replicate (data.length * blobSidecarSize) 0)
        = some (Except.ok (acc ++ (data.map sszBytes).flatten))
       ∧ ∀ s ∈ data, ∃ bs, s.ssz = Except.ok bs) := by
  induction data with
  | nil =>
    intro i acc hacc hall
    right
    constructor
    · simp [marshalSSZGo]
    · simp
  | cons s rest ih =>
    intro i acc hacc hall
    cases hssz : s.ssz with
    | error e =>
      left
      refine ⟨e, ?_, s, List.mem_cons_self _ _, hssz⟩
      simp [marshalSSZGo, hssz]
    | ok bs =>
      have hlen : bs.length = blobSidecarSize :=
        hall s (List.mem_cons_self _ _) bs hssz
      rw [marshalSSZGo_cons_ok s rest i acc bs hssz hacc hlen]
      rcases ih (i + 1) (acc ++ bs) (by simp [hacc, hlen, Nat.succ_mul])
          (fun x hx b2 hb2 => hall x (List.mem_cons_of_mem _ hx) b2 hb2) with
        ⟨e, heq, s2, hs2, herr⟩ | ⟨heq, hok⟩
      · exact Or.inl ⟨e, heq, s2, List.mem_cons_of_mem _ hs2, herr⟩
      · refine Or.inr ⟨?_, ?_⟩
        · rw [heq]
          have hb : sszBytes s = bs := by simp [sszBytes, hssz]
          simp [hb, List.append_assoc]
        · intro x hx
          rcases List.mem_cons.mp hx with rfl | hx2
          · exact ⟨bs, hssz⟩
          · exact hok x hx2

/-- Claim C8: when every record that serializes successfully does so to exactly
131928 bytes, `MarshalSSZ` never writes outside its allocated buffer (the
slice-bounds panic case is unreachable), and it returns an error exactly when
some record fails to serialize; and there is a `BlobSidecars` value with a
record of a different byte length for which `MarshalSSZ` succeeds with no
detectable error while the concatenation no longer decodes to the original
records (silent corruption). -/
theorem marshalSSZ_bounds_and_errors (b : BlobSidecars)
    (h : ∀ s ∈ b.Data, ∀ bs, s.ssz = Except.ok bs → bs.length = blobSidecarSize) :
    b.MarshalSSZ ≠ none ∧
    ((∃ e, b.MarshalSSZ = some (Except.error e)) ↔
      ∃ s ∈ b.Data, ∃ e, s.ssz = Except.error e) ∧
    (∃ b2 : BlobSidecars,
      (∃ s ∈ b2.Data, ∃ bs, s.ssz = Except.ok bs ∧ bs.length ≠ blobSidecarSize) ∧
      ∃ out, b2.MarshalSSZ = some (Except.ok out) ∧
        decodeBlobSidecars out ≠ Except.ok (b2.Data.map sszBytes)) := by
  have hM : b.MarshalSSZ
      = marshalSSZGo b.Data 0 ([] ++ List.replicate (b.Data.length * blobSidecarSize) 0) := by
    simp [BlobSidecars.MarshalSSZ, BlobSidecars.SizeSSZ]
  have hchar := marshalSSZGo_char b.Data 0 [] (by simp) h
  refine ⟨?_, ?_, ?_⟩
  · rcases hchar with ⟨e, heq, _⟩ | ⟨heq, _⟩ <;> rw [hM, heq] <;> simp
  · constructor
    · intro ⟨e2, heq2⟩
      rcases hchar with ⟨e, heq, s2, hs2, herr⟩ | ⟨heq, hok⟩
      · rw [hM, heq] at heq2
        simp only [Option.some.injEq] at heq2
        cases heq2
        exact ⟨s2, hs2, e2, herr⟩
      · rw [hM, heq] at heq2
        simp at heq2
    · intro ⟨s2, hs2, e2, herr⟩
      rcases hchar with ⟨e, heq, _⟩ | ⟨heq, hok⟩
      · exact ⟨e, by rw [hM, heq]⟩
      · obtain ⟨bs, hssz⟩ := hok s2 hs2
        rw [hssz] at herr
        cases herr
  · have h2B : (2 : Nat) ≤ blobSidecarSize := by decide
    have hsize : BlobSidecars.SizeSSZ ⟨[⟨Except.ok [1, 2]⟩]⟩ = blobSidecarSize := by
      rw [BlobSidecars.SizeSSZ]
      simp only [List.length_cons, List.length_nil, Nat.zero_add, Nat.one_mul]
    have hc : copySlice (List.replicate blobSidecarSize 0) (0 * ([1, 2] : List Nat).length)
        ((0 + 1) * ([1, 2] : List Nat).length) [1, 2]
        = some ([1, 2] ++ List.replicate (blobSidecarSize - 2) 0) := by
      have hx : (0 : Nat) * ([1, 2] : List Nat).length = 0 := by norm_num
      have hy : ((0 : Nat) + 1) * ([1, 2] : List Nat).length = 2 := by norm_num
      rw [hx, hy]
      have hcond : (0 : Nat) ≤ 2 ∧ 2 ≤ (List.replicate blobSidecarSize (0 : Nat)).length := by
        rw [List.length_replicate]
        exact ⟨by norm_num, h2B⟩
      rw [copySlice, if_pos hcond]
      simp only [List.take_zero, List.nil_append, Nat.sub_zero, List.length_cons,
        List.length_nil, Nat.zero_add, List.drop_replicate]
      rfl
    have hmarshal : BlobSidecars.MarshalSSZ ⟨[⟨Except.ok [1, 2]⟩]⟩
        = some (Except.ok ([1, 2] ++ List.replicate (blobSidecarSize - 2) 0)) := by
      rw [BlobSidecars.MarshalSSZ, hsize]
      exact marshalSSZGo_single ⟨Except.ok [1, 2]⟩ [1, 2] (List.replicate blobSidecarSize 0)
        rfl ([1, 2] ++ List.replicate (blobSidecarSize - 2) 0) hc
    have hlen12 : ([1, 2] : List Nat).length = 2 := rfl
    have hlenw : ([1, 2] ++ List.replicate (blobSidecarSize - 2) (0 : Nat)).length
        = blobSidecarSize := by
      rw [List.length_append, List.length_replicate, hlen12]
      omega
    have hmod : ([1, 2] ++ List.replicate (blobSidecarSize - 2) (0 : Nat)).length
        % blobSidecarSize = 0 := by
      rw [hlenw]
      exact Nat.mod_self _
    have hne : ¬(blobSidecarSize = 0 ∨
        ([1, 2] ++ List.replicate (blobSidecarSize - 2) (0 : Nat)) = []) := by
      intro hor
      rcases hor with h0 | hnil
      · exact absurd h0 (by decide)
      · have hz := congrArg List.length hnil
        rw [hlenw, List.length_nil] at hz
        exact absurd hz (by decide)
    have hslice : sliceRecords blobSidecarSize
        ([1, 2] ++ List.replicate (blobSidecarSize - 2) 0)
        = [[1, 2] ++ List.replicate (blobSidecarSize - 2) 0] := by
      rw [sliceRecords, dif_neg hne,
        List.take_of_length_le (le_of_eq hlenw), List.drop_of_length_le (le_of_eq hlenw)]
      rw [sliceRecords, dif_pos (Or.inr rfl)]
    have hmap : (⟨[⟨Except.ok [1, 2]⟩]⟩ : BlobSidecars).Data.map sszBytes = [[1, 2]] := rfl
    refine ⟨⟨[⟨Except.ok [1, 2]⟩]⟩,
      ⟨⟨Except.ok [1, 2]⟩, List.mem_singleton.mpr rfl, [1, 2], rfl, by decide⟩,
      [1, 2] ++ List.replicate (blobSidecarSize - 2) 0, hmarshal, ?_⟩
    intro hcontra
    rw [decodeBlobSidecars, if_pos hmod, hslice, hmap] at hcontra
    injection hcontra with h1
    injection h1 with hw htl
    have hlen2 := congrArg List.length hw
    rw [hlenw, hlen12] at hlen2
    exact absurd hlen2 (by decide)


/-- Claim C8 witness: the empty record list (trivially all fixed-size) is in
bounds and error-free, and the corruption example exists. -/
theorem marshalSSZ_bounds_and_errors_witness :
    BlobSidecars.MarshalSSZ ⟨[]⟩ ≠ none ∧
    ((∃ e, BlobSidecars.MarshalSSZ ⟨[]⟩ = some (Except.error e)) ↔
      ∃ s ∈ (⟨[]⟩ : BlobSidecars).Data, ∃ e, s.ssz = Except.error e) ∧
    (∃ b2 : BlobSidecars,
      (∃ s ∈ b2.Data, ∃ bs, s.ssz = Except.ok bs ∧ bs.length ≠ blobSidecarSize) ∧
      ∃ out, b2.MarshalSSZ = some (Except.ok out) ∧
        decodeBlobSidecars out ≠ Except.ok (b2.Data.map sszBytes)) :=
  marshalSSZ_bounds_and_errors ⟨[]⟩ (by
    intro s hs
    simp at hs)
